import Mathlib

/-!
Verification of the transcript parsing core of a session viewer.

The development shallowly embeds the functions of `session_parser.py`:
JSON values are an inductive type, Python dictionaries are association
lists, fallible Python code (code that can raise) returns
`Except PyErr _`, and `datetime` values are microsecond counts paired
with an awareness flag.  Each definition is translated from the source;
definitions whose name starts with `spec` restate a contract in the
words of the specification, for comparison with the source translation.
-/

/-- A JSON value, as produced by `json.loads`.  Numbers are modelled as
integers (the transcript fields exercised here are integers or strings);
objects are association lists with the unique keys `json.loads` yields. -/
inductive Json where
  | null
  | bool (b : Bool)
  | num (n : Int)
  | str (s : String)
  | arr (xs : List Json)
  | obj (fields : List (String × Json))

/-- The Python exceptions the embedded code can raise. -/
inductive PyErr where
  | typeError
  | attributeError
  | osError
deriving DecidableEq

/-- Lookup in an association list, as Python dict access on the unique
keys produced by `json.loads`. -/
def jLookup : List (String × Json) → String → Option Json
  | [], _ => none
  | (k, v) :: rest, key => if k = key then some v else jLookup rest key

/-- Python `obj.get(key)`: `AttributeError` unless `obj` is a dict. -/
def pyGet (o : Json) (k : String) : Except PyErr (Option Json) :=
  match o with
  | .obj fs => .ok (jLookup fs k)
  | _ => .error .attributeError

/-- Python `obj.get(key, default)`: `AttributeError` unless `obj` is a dict. -/
def pyGetD (o : Json) (k : String) (d : Json) : Except PyErr Json :=
  match o with
  | .obj fs => .ok ((jLookup fs k).getD d)
  | _ => .error .attributeError

/-- Pure dict lookup with default, for blocks already known to be dicts. -/
def jGetD (o : Json) (k : String) (d : Json) : Json :=
  match o with
  | .obj fs => (jLookup fs k).getD d
  | _ => d

/-- Python truthiness of a JSON value. -/
def pyTruthy : Json → Bool
  | .null => false
  | .bool b => b
  | .num n => n != 0
  | .str s => s != ""
  | .arr xs => !xs.isEmpty
  | .obj fs => !fs.isEmpty

/-- Does an optional JSON value equal a given Python string
(`value == "literal"`)? -/
def jEqStrO : Option Json → String → Bool
  | some (.str s), t => s == t
  | _, _ => false

/-- Does a JSON value equal a given Python string? -/
def jEqStrJ : Json → String → Bool
  | .str s, t => s == t
  | _, _ => false

/-- A single quote character, used by the Python `repr` of strings. -/
def sqChar : Char := Char.ofNat 39

/-- Python `repr` of a JSON value (simplified: strings are wrapped in
single quotes without escape processing). -/
def pyRepr : Json → String
  | .null => "None"
  | .bool true => "True"
  | .bool false => "False"
  | .num n => toString n
  | .str s => String.singleton sqChar ++ s ++ String.singleton sqChar
  | .arr xs => "[" ++ String.intercalate ", " (xs.attach.map fun x => pyRepr x.1) ++ "]"
  | .obj fs => "\x7b" ++
      String.intercalate ", "
        (fs.attach.map fun kv =>
          String.singleton sqChar ++ kv.1.1 ++ String.singleton sqChar ++ ": " ++ pyRepr kv.1.2) ++
      "\x7d"
decreasing_by
  · have := List.sizeOf_lt_of_mem x.2
    simp only [Json.arr.sizeOf_spec]
    omega
  · have h1 := List.sizeOf_lt_of_mem kv.2
    have h2 : sizeOf kv.1.2 < sizeOf kv.1 := by
      obtain ⟨⟨a, b⟩, hm⟩ := kv
      simp only [Prod.mk.sizeOf_spec]
      omega
    simp only [Json.obj.sizeOf_spec]
    omega

/-- Python `str()` of a JSON value: identity on strings, `repr`-style
rendering otherwise. -/
def pyStr : Json → String
  | .str s => s
  | v => pyRepr v

/-- Extract the underlying string of a JSON string value. -/
def jAsStr : Json → Option String
  | .str s => some s
  | _ => none

/-- Are all values strings?  Python `sep.join` requires every element to
be a `str`. -/
def allStrings (xs : List Json) : Option (List String) :=
  xs.mapM jAsStr

/-- Python `sep.join(values)`: `TypeError` unless every value is a string. -/
def pyJoin (sep : String) (xs : List Json) : Except PyErr String :=
  match allStrings xs with
  | some ss => .ok (String.intercalate sep ss)
  | none => .error .typeError

/-- Python `len` on a JSON value: defined for strings, lists and dicts,
`TypeError` otherwise. -/
def pyLen : Json → Except PyErr Nat
  | .str s => .ok s.length
  | .arr xs => .ok xs.length
  | .obj fs => .ok fs.length
  | _ => .error .typeError

/-- Python slice `v[:n]` on a JSON value: defined for strings and lists. -/
def pySliceTake (v : Json) (n : Nat) : Except PyErr Json :=
  match v with
  | .str s => .ok (.str (s.take n))
  | .arr xs => .ok (.arr (xs.take n))
  | _ => .error .typeError

/-- Replace occurrences of `pat` left to right, non-overlapping, with
structural fuel (one unit per examined character, so `s.length` fuel
always suffices). -/
def replaceFuel (pat rep : List Char) : Nat → List Char → List Char
  | 0, s => s
  | _ + 1, [] => []
  | n + 1, c :: rest =>
      if pat.isPrefixOf (c :: rest)
      then rep ++ replaceFuel pat rep n (rest.drop (pat.length - 1))
      else c :: replaceFuel pat rep n rest

/-- Python `s.replace(pat, rep)` for a non-empty pattern: all
non-overlapping occurrences, scanned left to right. -/
def sReplace (s pat rep : String) : String :=
  ⟨replaceFuel pat.data rep.data s.data.length s.data⟩

/-- Python `s.endswith(t)`. -/
def sEndsWith (s t : String) : Bool :=
  t.data.isSuffixOf s.data

/-- Python `s.startswith(t)`. -/
def sStartsWith (s t : String) : Bool :=
  t.data.isPrefixOf s.data

/-- Python `s.lstrip("-")`. -/
def sLstripDash (s : String) : String :=
  ⟨s.data.dropWhile (fun c => c == '-')⟩

/-- Lexicographic comparison of character lists by code point. -/
def listLexLt : List Char → List Char → Bool
  | [], [] => false
  | [], _ :: _ => true
  | _ :: _, [] => false
  | a :: as, b :: bs =>
      if a < b then true else if b < a then false else listLexLt as bs

/-- Python `<` on strings (code-point lexicographic). -/
def sNameLt (a b : String) : Bool := listLexLt a.data b.data

/-- The ordered interior-substring replacement table of
`_decode_project_path` (lines 79-85 of the source). -/
def domainReplacements : List (String × String) :=
  [("-tech-pepabo-com-", "/tech.pepabo.com/"),
   ("-git-pepabo-com-", "/git.pepabo.com/"),
   ("-github-com-", "/github.com/"),
   ("-gitlab-com-", "/gitlab.com/"),
   ("-bitbucket-org-", "/bitbucket.org/")]

/-- The ordered suffix replacement table of `_decode_project_path`
(lines 90-96 of the source). -/
def domainEndings : List (String × String) :=
  [("-tech-pepabo-com", "/tech.pepabo.com"),
   ("-git-pepabo-com", "/git.pepabo.com"),
   ("-github-com", "/github.com"),
   ("-gitlab-com", "/gitlab.com"),
   ("-bitbucket-org", "/bitbucket.org")]

/-- `_decode_project_path` (source lines 62-104): restore a plausible
original path from an encoded project directory name. -/
def decodeProjectPath (dirName : String) : String :=
  if dirName = "" then dirName
  else
    let encoded := sLstripDash dirName
    let encoded := domainReplacements.foldl
      (fun s p => sReplace s p.1 p.2) encoded
    let encoded := domainEndings.foldl
      (fun s p => if sEndsWith s p.1 then s.dropRight p.1.length ++ p.2 else s) encoded
    "/" ++ sReplace encoded "-" "/"

/-- A parsed `datetime` value: microseconds since midnight of year 1,
day 1 (the proleptic Gregorian ordinal origin, so `datetime.min` is 0),
adjusted by the UTC offset when one is present, together with the flag
distinguishing offset-aware from offset-naive values. -/
structure Timestamp where
  us : Int
  aware : Bool
deriving DecidableEq

/-- Python `datetime.min`: year 1, January 1, midnight, offset-naive. -/
def datetimeMin : Timestamp := ⟨0, false⟩

/-- Is a year a Gregorian leap year? -/
def isLeapYear (y : Nat) : Bool :=
  y % 4 == 0 && (y % 100 != 0 || y % 400 == 0)

/-- Number of days in a month. -/
def daysInMonth (y m : Nat) : Nat :=
  if m = 2 then (if isLeapYear y then 29 else 28)
  else if m = 4 || m = 6 || m = 9 || m = 11 then 30
  else 31

/-- Days in all years strictly before year `y` (years count from 1). -/
def daysBeforeYear (y : Nat) : Nat :=
  let n := y - 1
  n * 365 + n / 4 - n / 100 + n / 400

/-- Days in the months of year `y` strictly before month `m`. -/
def daysBeforeMonth (y m : Nat) : Nat :=
  (List.range (m - 1)).foldl (fun a i => a + daysInMonth y (i + 1)) 0

/-- Day number of a calendar date, counting the first of year 1 as 0. -/
def dateToDays (y m d : Nat) : Nat :=
  daysBeforeYear y + daysBeforeMonth y m + (d - 1)

/-- Read one decimal digit. -/
def readDigit : Char → Option Nat
  | c => if c.isDigit then some (c.toNat - 48) else none

/-- Read two decimal digits. -/
def read2 : List Char → Option (Nat × List Char)
  | a :: b :: rest => do
      let x ← readDigit a
      let y ← readDigit b
      some (x * 10 + y, rest)
  | _ => none

/-- Read four decimal digits. -/
def read4 : List Char → Option (Nat × List Char)
  | a :: b :: c :: d :: rest => do
      let w ← readDigit a
      let x ← readDigit b
      let y ← readDigit c
      let z ← readDigit d
      some (((w * 10 + x) * 10 + y) * 10 + z, rest)
  | _ => none

/-- Consume an expected character. -/
def expectChar (c : Char) : List Char → Option (List Char)
  | x :: rest => if x = c then some rest else none
  | [] => none

/-- Microseconds denoted by a fractional-seconds digit string. -/
def fracToUs (digits : List Char) : Option Nat := do
  if digits.length = 0 || 6 < digits.length then none
  else
    let v ← digits.foldlM (fun a c => do let d ← readDigit c; some (a * 10 + d)) 0
    some (v * 10 ^ (6 - digits.length))

/-- Read the optional `:SS[.ffffff]` part of a time. -/
def readSeconds : List Char → Option (Nat × Nat × List Char)
  | ':' :: rest => do
      let (sec, rest) ← read2 rest
      match rest with
      | '.' :: r2 =>
          let digits := r2.takeWhile Char.isDigit
          let us ← fracToUs digits
          some (sec, us, r2.drop digits.length)
      | _ => some (sec, 0, rest)
  | cs => some (0, 0, cs)

/-- Read a `HH:MM` UTC offset body, as minutes. -/
def readOffsetBody (cs : List Char) : Option (Nat × List Char) := do
  let (h, cs) ← read2 cs
  let cs ← expectChar ':' cs
  let (m, cs) ← read2 cs
  if h < 24 && m < 60 then some (h * 60 + m, cs) else none

/-- Read the optional trailing UTC offset, as signed minutes. -/
def readOffset : List Char → Option (Option Int × List Char)
  | [] => some (none, [])
  | '+' :: rest => do
      let (o, rest) ← readOffsetBody rest
      some (some (o : Int), rest)
  | '-' :: rest => do
      let (o, rest) ← readOffsetBody rest
      some (some (-(o : Int)), rest)
  | _ => none

/-- Model of the standard library `datetime.fromisoformat`, restricted
to the extended ISO-8601 shapes the transcripts use: a calendar date,
optionally followed by a time with optional fractional seconds and an
optional `+HH:MM`/`-HH:MM` UTC offset.  Malformed input yields `none`
(the caller catches the `ValueError` the library raises). -/
def fromisoformat (s : String) : Option Timestamp := do
  let cs := s.toList
  let (y, cs) ← read4 cs
  let cs ← expectChar '-' cs
  let (mo, cs) ← read2 cs
  let cs ← expectChar '-' cs
  let (d, cs) ← read2 cs
  if y < 1 || 9999 < y || mo < 1 || 12 < mo || d < 1 || daysInMonth y mo < d then none
  else
    match cs with
    | [] => some ⟨(dateToDays y mo d * 86400000000 : Nat), false⟩
    | sep :: cs =>
        if sep ≠ 'T' && sep ≠ ' ' then none
        else do
          let (h, cs) ← read2 cs
          let cs ← expectChar ':' cs
          let (mi, cs) ← read2 cs
          let (sec, us, cs) ← readSeconds cs
          if 23 < h || 59 < mi || 59 < sec then none
          else do
            let (off, cs) ← readOffset cs
            if !cs.isEmpty then none
            else
              let total : Nat :=
                ((dateToDays y mo d * 86400 + h * 3600 + mi * 60 + sec) * 1000000 + us)
              match off with
              | none => some ⟨(total : Int), false⟩
              | some o => some ⟨(total : Int) - o * 60000000, true⟩

/-- `_parse_timestamp` (source lines 126-134).  The input is the JSON
value found in the record (Python passes `obj.get(...)`, so a missing
field arrives as `None`).  A falsy value returns `None`; a string is
normalized (`"Z"` replaced by `"+00:00"`) and parsed, with `ValueError`
caught; any other truthy value hits `.replace` on a non-string and the
resulting `AttributeError` is not caught by the
`except (ValueError, TypeError)` clause. -/
def parseTimestamp (v : Json) : Except PyErr (Option Timestamp) :=
  if !pyTruthy v then .ok none
  else
    match v with
    | .str s => .ok (fromisoformat (sReplace s "Z" "+00:00"))
    | _ => .error .attributeError

/-- The text values accumulated by the loop of
`_extract_text_from_content` over a block list: the `text` field
(default `""`) of every dict block whose `type` equals `"text"`. -/
def blockTextVals (bs : List Json) : List Json :=
  bs.filterMap fun b =>
    match b with
    | .obj fs =>
        if jEqStrO (jLookup fs "type") "text"
        then some ((jLookup fs "text").getD (.str ""))
        else none
    | _ => none

/-- `_extract_text_from_content` (source lines 137-150): a string is
returned unchanged; a list is reduced to the newline-join of the `text`
fields of its `"text"` blocks (the join raises `TypeError` when a
collected value is not a string); any other shape yields `""`. -/
def extractTextFromContent : Json → Except PyErr String
  | .str s => .ok s
  | .arr bs => pyJoin "\n" (blockTextVals bs)
  | _ => .ok ""

/-- Is a block a dict whose `type` is `"tool_use"` or `"tool_result"`? -/
def isToolBlock (b : Json) : Bool :=
  match b with
  | .obj fs =>
      jEqStrO (jLookup fs "type") "tool_use" || jEqStrO (jLookup fs "type") "tool_result"
  | _ => false

/-- `_extract_messages_from_content` (source lines 153-164): the
`tool_use`/`tool_result` dict blocks of a content list, in order. -/
def extractMessagesFromContent : Json → List Json
  | .arr bs => bs.filter isToolBlock
  | _ => []

/-- A parsed message, as the `Message` dataclass of the source.  The
`toolName` and `toolInput` fields carry the raw JSON values the code
stores. -/
structure Message where
  role : String
  text : String
  timestamp : Option Timestamp
  toolName : Option Json := none
  toolInput : Option Json := none

/-- Session metadata, as the `SessionInfo` dataclass.  `gitBranch` and
`summary` hold the raw JSON values the unchecked `get` calls store. -/
structure SessionInfo where
  sessionId : String
  projectName : String
  preview : String
  timestamp : Option Timestamp
  messageCount : Nat
  gitBranch : Json
  summary : Json

/-- Project metadata, as the `ProjectInfo` dataclass.  `originalPath`
holds the raw JSON value when it comes from the index. -/
structure ProjectInfo where
  dirName : String
  originalPath : Json
  sessionCount : Nat

/-- The key of the sort in `_list_sessions_from_files` and
`_list_sessions_from_index`: `s.timestamp or datetime.min` (a datetime
is always truthy, so only `None` falls back to `datetime.min`). -/
def sessKey (s : SessionInfo) : Timestamp :=
  s.timestamp.getD datetimeMin

/-- Python `<` on datetimes: compares instants when both operands have
the same awareness, raises `TypeError` when an offset-naive datetime
meets an offset-aware one. -/
def tsLt (a b : Timestamp) : Except PyErr Bool :=
  if a.aware = b.aware then .ok (decide (a.us < b.us)) else .error .typeError

/-- Insert a session into a descending-sorted list, placing it before
the first session with a strictly smaller key (so equal keys keep their
original relative order, as the stable Python sort does). -/
def insertDesc (x : SessionInfo) : List SessionInfo → Except PyErr (List SessionInfo)
  | [] => .ok [x]
  | y :: ys => do
      let lt ← tsLt (sessKey y) (sessKey x)
      if lt then .ok (x :: y :: ys)
      else do
        let r ← insertDesc x ys
        .ok (y :: r)

/-- Model of `sessions.sort(key=lambda s: s.timestamp or datetime.min,
reverse=True)`: a stable descending sort that raises `TypeError` when it
compares an offset-naive key with an offset-aware one. -/
def sortByTsDesc (xs : List SessionInfo) : Except PyErr (List SessionInfo) :=
  xs.foldlM (fun acc x => insertDesc x acc) []

/-- `obj.get("message", {}).get("content", "")`, the content accessor
shared by the scanning loop and `load_session`. -/
def msgContentOf (obj : Json) : Except PyErr Json := do
  let mv ← pyGetD obj "message" (.obj [])
  pyGetD mv "content" (.str "")

/-- `obj.get("timestamp")` fed to `_parse_timestamp` (a missing field
arrives as Python `None`). -/
def tsOf (obj : Json) : Except PyErr (Option Timestamp) := do
  let raw ← pyGet obj "timestamp"
  parseTimestamp (raw.getD .null)

/-- The truncation applied to a session preview (source lines 234-235
and 283-284): over 200 code points, cut to 200 and append an ellipsis. -/
def truncPreview (s : String) : String :=
  if 200 < s.length then s.take 200 ++ "..." else s

/-- The running state of the per-file loop of
`_list_sessions_from_files`. -/
structure ScanState where
  preview : String
  timestamp : Option Timestamp
  gitBranch : Json
  messageCount : Nat

/-- One iteration of the per-line loop of `_list_sessions_from_files`
(source lines 276-286): count user/assistant records; while the running
preview is empty, a user record overwrites preview (truncated),
timestamp and git branch. -/
def scanStep (st : ScanState) (obj : Json) : Except PyErr ScanState := do
  let msgType ← pyGet obj "type"
  let st :=
    if jEqStrO msgType "user" || jEqStrO msgType "assistant"
    then { st with messageCount := st.messageCount + 1 } else st
  if jEqStrO msgType "user" && st.preview == "" then do
    let content ← msgContentOf obj
    let p ← extractTextFromContent content
    let p := truncPreview p
    let ts ← tsOf obj
    let gb ← pyGetD obj "gitBranch" (.str "")
    .ok { st with preview := p, timestamp := ts, gitBranch := gb }
  else
    .ok st

/-- Fold the scanning loop over the parsed lines of one file. -/
def scanFold (st : ScanState) (ls : List Json) : Except PyErr ScanState :=
  ls.foldlM scanStep st

/-- Scan one transcript file (source lines 258-299).  A line is `none`
when it is blank or fails JSON parsing, and is skipped. -/
def scanFile (stem projectName : String) (ls : List (Option Json)) :
    Except PyErr SessionInfo := do
  let st ← scanFold ⟨"", none, .str "", 0⟩ (ls.filterMap id)
  .ok ⟨stem, projectName, st.preview, st.timestamp, st.messageCount, st.gitBranch, .str ""⟩

/-- `_list_sessions_from_files` (source lines 253-302).  Each file is a
stem paired with its parsed lines; a file whose contents are `none`
raised `OSError` on open and is skipped.  The collected sessions are
sorted newest first. -/
def listSessionsFromFiles (projectName : String)
    (files : List (String × Option (List (Option Json)))) :
    Except PyErr (List SessionInfo) := do
  let sessions ← files.foldlM (fun acc file =>
    match file.2 with
    | none => .ok acc
    | some ls => do
        let s ← scanFile file.1 projectName ls
        .ok (acc ++ [s])) []
  sortByTsDesc sessions

/-- Naive substring containment, modelling Python `sub in s`. -/
def strContainsSub (s pat : String) : Bool :=
  (List.range (s.data.length + 1)).any fun i => pat.data.isPrefixOf (s.data.drop i)

/-- The possible states of a project index file on disk. -/
inductive IndexFile where
  | absent
  | unreadable
  | malformed
  | parsed (j : Json)

/-- `_try_get_original_path` (source lines 107-123).  The
`except` clause catches `JSONDecodeError`, `KeyError` and `IndexError`
only: a missing file returns `None`; an unreadable file raises `OSError`
out of the function; a file that fails JSON parsing returns `None`; on
parsed data, an `originalPath` key wins, else the `projectPath` of the
first entry of a truthy `entries` value, with the shape errors Python
produces on each non-dict branch. -/
def tryGetOriginalPath : IndexFile → Except PyErr (Option Json)
  | .absent => .ok none
  | .unreadable => .error .osError
  | .malformed => .ok none
  | .parsed data =>
    match data with
    | .obj fs =>
        match jLookup fs "originalPath" with
        | some v => .ok (some v)
        | none =>
            match (jLookup fs "entries").getD (.arr []) with
            | .arr [] => .ok none
            | .arr (e0 :: _) =>
                match e0 with
                | .obj efs => .ok (jLookup efs "projectPath")
                | .str s =>
                    if strContainsSub s "projectPath"
                    then .error .typeError else .ok none
                | .arr es =>
                    if es.any (fun e => jEqStrJ e "projectPath")
                    then .error .typeError else .ok none
                | _ => .error .typeError
            | .str _ => .ok none
            | .obj [] => .ok none
            | .obj (_ :: _) => .ok none
            | .num n => if n = 0 then .ok none else .error .typeError
            | .bool false => .ok none
            | .bool true => .error .typeError
            | .null => .ok none
    | .arr es =>
        if es.any (fun e => jEqStrJ e "originalPath")
        then .error .typeError else .error .attributeError
    | .str s =>
        if strContainsSub s "originalPath"
        then .error .typeError else .error .attributeError
    | _ => .error .typeError

/-- One subdirectory of the projects root, with the state of its index
file and the names of its files. -/
structure DirEntry where
  name : String
  isDir : Bool
  index : IndexFile
  files : List String

/-- Insert a directory entry into a name-sorted list (ascending,
stable), modelling `sorted(...iterdir())`. -/
def insertByName (x : DirEntry) : List DirEntry → List DirEntry
  | [] => [x]
  | y :: ys => if sNameLt x.name y.name then x :: y :: ys else y :: insertByName x ys

/-- Sort directory entries by name ascending. -/
def sortDirEntries (xs : List DirEntry) : List DirEntry :=
  xs.foldl (fun acc x => insertByName x acc) []

/-- `list_projects` (source lines 167-193).  A missing root directory
(`none`) yields the empty list; otherwise each subdirectory becomes a
`ProjectInfo` whose original path comes from the index when
`_try_get_original_path` returns one and from `_decode_project_path`
otherwise, and whose session count is the number of `.jsonl` files. -/
def listProjects (root : Option (List DirEntry)) : Except PyErr (List ProjectInfo) :=
  match root with
  | none => .ok []
  | some entries =>
      (sortDirEntries entries).foldlM (fun acc e =>
        if !e.isDir then .ok acc
        else do
          let op ← tryGetOriginalPath e.index
          let originalPath :=
            match op with
            | some v => v
            | none => .str (decodeProjectPath e.name)
          let cnt := (e.files.filter (fun f => sEndsWith f ".jsonl")).length
          .ok (acc ++ [⟨e.name, originalPath, cnt⟩])) []

/-- `_summarize_tool_use` (source lines 407-432): per-tool summary text.
The tool name is the raw JSON value stored on the block; the input is
accessed with `.get`, raising `AttributeError` when it is not a dict
(the fallback branch touches neither). -/
def summarizeToolUse (toolName input : Json) : Except PyErr String :=
  if jEqStrJ toolName "Bash" then do
    let cmd ← pyGetD input "command" (.str "")
    let desc ← pyGetD input "description" (.str "")
    if pyTruthy desc then .ok ("[Bash] " ++ pyStr desc)
    else do
      let n ← pyLen cmd
      if 100 < n then do
        let c ← pySliceTake cmd 100
        .ok ("[Bash] " ++ pyStr c ++ "...")
      else .ok ("[Bash] " ++ pyStr cmd)
  else if jEqStrJ toolName "Read" then do
    let fp ← pyGetD input "file_path" (.str "")
    .ok ("[Read] " ++ pyStr fp)
  else if jEqStrJ toolName "Write" then do
    let fp ← pyGetD input "file_path" (.str "")
    .ok ("[Write] " ++ pyStr fp)
  else if jEqStrJ toolName "Edit" then do
    let fp ← pyGetD input "file_path" (.str "")
    .ok ("[Edit] " ++ pyStr fp)
  else if jEqStrJ toolName "Grep" then do
    let pat ← pyGetD input "pattern" (.str "")
    let path ← pyGetD input "path" (.str ".")
    .ok ("[Grep] " ++ pyStr pat ++ " in " ++ pyStr path)
  else if jEqStrJ toolName "Glob" then do
    let pat ← pyGetD input "pattern" (.str "")
    .ok ("[Glob] " ++ pyStr pat)
  else if jEqStrJ toolName "WebFetch" then do
    let url ← pyGetD input "url" (.str "")
    .ok ("[WebFetch] " ++ pyStr url)
  else .ok ("[" ++ pyStr toolName ++ "]")

/-- Is a block a dict whose `type` is `"tool_result"`? -/
def isToolResultBlock (b : Json) : Bool :=
  match b with
  | .obj fs => jEqStrO (jLookup fs "type") "tool_result"
  | _ => false

/-- Is a block a dict whose `type` is `"tool_use"`? -/
def isToolUseBlock (b : Json) : Bool :=
  match b with
  | .obj fs => jEqStrO (jLookup fs "type") "tool_use"
  | _ => false

/-- The text of a `tool_result` message (source lines 338-344): the
extracted text when the result content is itself a list, else the
content coerced with `str()`. -/
def toolResultText (block : Json) : Except PyErr String := do
  let rc ← pyGetD block "content" (.str "")
  match rc with
  | .arr _ => extractTextFromContent rc
  | _ => .ok (pyStr rc)

/-- The loop of the user branch over the extracted tool blocks
(source lines 336-351): each `tool_result` block appends one message. -/
def toolResultLoop (ts : Option Timestamp) (acc : List Message) :
    List Json → Except PyErr (List Message)
  | [] => .ok acc
  | b :: rest =>
      if isToolResultBlock b then do
        let t ← toolResultText b
        toolResultLoop ts (acc ++ [⟨"tool_result", t, ts, none, none⟩]) rest
      else toolResultLoop ts acc rest

/-- The loop of the assistant branch over the content blocks
(source lines 376-391): each dict block of type `tool_use` appends one
message carrying name, input and summary. -/
def toolUseLoop (ts : Option Timestamp) (acc : List Message) :
    List Json → Except PyErr (List Message)
  | [] => .ok acc
  | b :: rest =>
      match b with
      | .obj fs =>
          if jEqStrO (jLookup fs "type") "tool_use" then do
            let name := (jLookup fs "name").getD (.str "")
            let input := (jLookup fs "input").getD (.obj [])
            let s ← summarizeToolUse name input
            toolUseLoop ts (acc ++ [⟨"tool_use", s, ts, some name, some input⟩]) rest
          else toolUseLoop ts acc rest
      | _ => toolUseLoop ts acc rest

/-- Emit the plain-text user message (source lines 352-364): one `user`
message exactly when the extracted text is non-empty. -/
def userText (ts : Option Timestamp) (content : Json) : Except PyErr (List Message) := do
  let text ← extractTextFromContent content
  .ok (if text == "" then [] else [⟨"user", text, ts, none, none⟩])

/-- Dispatch of the user branch on the content shape (source lines
333-364): a list with at least one `tool_use`/`tool_result` block yields
only the `tool_result` messages; otherwise the plain-text path runs. -/
def processUserContent (ts : Option Timestamp) (content : Json) :
    Except PyErr (List Message) :=
  match content with
  | .arr _ =>
      let tbs := extractMessagesFromContent content
      if tbs.isEmpty then userText ts content
      else toolResultLoop ts [] tbs
  | _ => userText ts content

/-- The user branch of `load_session` (source lines 330-364). -/
def processUser (ts : Option Timestamp) (obj : Json) : Except PyErr (List Message) := do
  let content ← msgContentOf obj
  processUserContent ts content

/-- The assistant branch of `load_session` (source lines 366-391): the
text message (when non-empty) followed by the `tool_use` messages in
document order. -/
def processAssistant (ts : Option Timestamp) (obj : Json) : Except PyErr (List Message) := do
  let content ← msgContentOf obj
  let text ← extractTextFromContent content
  let first := if text == "" then [] else [⟨"assistant", text, ts, none, none⟩]
  match content with
  | .arr bs => toolUseLoop ts first bs
  | _ => .ok first

/-- The system branch of `load_session` (source lines 393-402). -/
def processSystem (ts : Option Timestamp) (obj : Json) : Except PyErr (List Message) := do
  let subtype ← pyGetD obj "subtype" (.str "")
  let t0 ← msgContentOf obj
  let t1 ←
    match t0 with
    | .arr _ => do
        let s ← extractTextFromContent t0
        pure (Json.str s)
    | .obj _ => do
        let s ← extractTextFromContent t0
        pure (Json.str s)
    | _ => pure t0
  let t2 :=
    if pyTruthy t1 then t1
    else if pyTruthy subtype then .str ("[system: " ++ pyStr subtype ++ "]")
    else .str "[system]"
  .ok [⟨"system", pyStr t2, ts, none, none⟩]

/-- Dispatch one transcript record by its `type` (source lines 330-402);
unknown types produce no message. -/
def processTyped (msgType : Option Json) (ts : Option Timestamp) (obj : Json) :
    Except PyErr (List Message) :=
  if jEqStrO msgType "user" then processUser ts obj
  else if jEqStrO msgType "assistant" then processAssistant ts obj
  else if jEqStrO msgType "system" then processSystem ts obj
  else .ok []

/-- Process one parsed transcript line of `load_session` (source lines
327-402): read the type, parse the timestamp once for the line, then
dispatch. -/
def processLine (obj : Json) : Except PyErr (List Message) := do
  let msgType ← pyGet obj "type"
  let ts ← tsOf obj
  processTyped msgType ts obj

/-- `load_session` (source lines 305-404).  `fileFound` is whether the
transcript file exists (a missing file yields the empty sequence); a
line is `none` when blank or unparseable and is skipped; the per-line
messages are concatenated in line order. -/
def loadSession (fileFound : Bool) (ls : List (Option Json)) :
    Except PyErr (List Message) :=
  if fileFound then
    (ls.filterMap id).foldlM (fun acc obj => do
      let ms ← processLine obj
      .ok (acc ++ ms)) []
  else .ok []

/-- The dotted multi-label domains whose encodings the decoder knows,
in the priority order the specification describes. -/
def specKnownDomains : List String :=
  ["tech.pepabo.com", "git.pepabo.com", "github.com", "gitlab.com", "bitbucket.org"]

/-- The encoded interior token of a dotted domain: label separators
collapsed to the separator character, with a separator on both sides. -/
def specEncodedToken (d : String) : String :=
  "-" ++ sReplace d "." "-" ++ "-"

/-- The encoded suffix token of a dotted domain. -/
def specEncodedSuffix (d : String) : String :=
  "-" ++ sReplace d "." "-"

/-- The interior-substring domain pass of the specification contract. -/
def specDomainPass (s : String) : String :=
  specKnownDomains.foldl (fun t d => sReplace t (specEncodedToken d) ("/" ++ d ++ "/")) s

/-- The suffix domain pass of the specification contract. -/
def specSuffixPass (s : String) : String :=
  specKnownDomains.foldl
    (fun t d =>
      if sEndsWith t (specEncodedSuffix d)
      then t.dropRight (specEncodedSuffix d).length ++ ("/" ++ d) else t) s

/-- The decode contract exactly as the claim words it: strip a single
optional leading separator, run the domain passes, map the remaining
separators, prefix one path separator. -/
def specDecodeSingleStrip (dirName : String) : String :=
  let s := if sStartsWith dirName "-" then ⟨dirName.data.drop 1⟩ else dirName
  "/" ++ sReplace (specSuffixPass (specDomainPass s)) "-" "/"

/-- The amended decode contract: strip all leading separators, run the
domain passes, map the remaining separators, prefix one path separator. -/
def specDecodeStripAll (dirName : String) : String :=
  "/" ++ sReplace (specSuffixPass (specDomainPass (sLstripDash dirName))) "-" "/"

/-- Monadic map over blocks in the `Except` monad, structurally
recursive. -/
def mapME (f : Json → Except PyErr Message) : List Json → Except PyErr (List Message)
  | [] => .ok []
  | b :: rest => do
      let m ← f b
      let rs ← mapME f rest
      .ok (m :: rs)

/-- One spec-side `tool_result` message built from a block. -/
def mkToolResultMsg (ts : Option Timestamp) (b : Json) : Except PyErr Message := do
  let t ← toolResultText b
  .ok ⟨"tool_result", t, ts, none, none⟩

/-- The `tool_result` blocks of a content value. -/
def contentToolResultBlocks : Json → List Json
  | .arr bs => bs.filter isToolResultBlock
  | _ => []

/-- The `tool_use` blocks of a content value. -/
def contentToolUseBlocks : Json → List Json
  | .arr bs => bs.filter isToolUseBlock
  | _ => []

/-- Does a content value hold at least one `tool_use` or `tool_result`
sub-block? -/
def hasToolSubBlock : Json → Bool
  | .arr bs => bs.any isToolBlock
  | _ => false

/-- The user-record contract exactly as the claim words it: dispatch on
the presence of `tool_result` blocks alone. -/
def specUserClaimed (ts : Option Timestamp) (content : Json) : Except PyErr (List Message) :=
  if !(contentToolResultBlocks content).isEmpty then
    mapME (mkToolResultMsg ts) (contentToolResultBlocks content)
  else do
    let t ← extractTextFromContent content
    .ok (if t == "" then [] else [⟨"user", t, ts, none, none⟩])

/-- The amended user-record contract: dispatch on the presence of any
`tool_use` or `tool_result` sub-block. -/
def specUserAmended (ts : Option Timestamp) (content : Json) : Except PyErr (List Message) :=
  if hasToolSubBlock content then
    mapME (mkToolResultMsg ts) (contentToolResultBlocks content)
  else do
    let t ← extractTextFromContent content
    .ok (if t == "" then [] else [⟨"user", t, ts, none, none⟩])

/-- One spec-side `tool_use` message built from a block. -/
def mkToolUseMsg (ts : Option Timestamp) (b : Json) : Except PyErr Message := do
  let name := jGetD b "name" (.str "")
  let input := jGetD b "input" (.obj [])
  let s ← summarizeToolUse name input
  .ok ⟨"tool_use", s, ts, some name, some input⟩

/-- The assistant-record contract as the claim words it: the non-empty
extracted text first, then one `tool_use` message per `tool_use` block
in document order. -/
def specAssistant (ts : Option Timestamp) (content : Json) : Except PyErr (List Message) := do
  let t ← extractTextFromContent content
  let tus ← mapME (mkToolUseMsg ts) (contentToolUseBlocks content)
  .ok ((if t == "" then [] else [⟨"assistant", t, ts, none, none⟩]) ++ tus)

/-- A minimal user record around a content value. -/
def mkUserRec (content : Json) : Json :=
  .obj [("type", .str "user"), ("message", .obj [("content", content)])]

/-- A minimal assistant record around a content value. -/
def mkAssistantRec (content : Json) : Json :=
  .obj [("type", .str "assistant"), ("message", .obj [("content", content)])]

/-- The interior replacement table is the token table of the known
domains, in order. -/
theorem domainReplacements_eq_spec :
    domainReplacements =
      specKnownDomains.map (fun d => (specEncodedToken d, "/" ++ d ++ "/")) := rfl

/-- The suffix replacement table is the suffix-token table of the known
domains, in order. -/
theorem domainEndings_eq_spec :
    domainEndings =
      specKnownDomains.map (fun d => (specEncodedSuffix d, "/" ++ d)) := rfl

/-- A user record carrying an offset-aware timestamp. -/
def c1AwareRec : Json :=
  .obj [("type", .str "user"), ("message", .obj [("content", .str "x")]),
        ("timestamp", .str "2026-01-30T03:17:44.781Z")]

/-- A user record with an older offset-aware timestamp. -/
def c1OldRec : Json :=
  .obj [("type", .str "user"), ("message", .obj [("content", .str "x")]),
        ("timestamp", .str "2026-01-01T00:00:00Z")]

/-- A user record with a newer offset-aware timestamp. -/
def c1NewRec : Json :=
  .obj [("type", .str "user"), ("message", .obj [("content", .str "y")]),
        ("timestamp", .str "2026-01-02T00:00:00Z")]

/-- C1: the claimed ordering does not hold because the sort is not even
total: scanning a project with one session whose first user record
carries an offset-aware timestamp and one session with no timestamp at
all makes the sort compare the aware key against the offset-naive
`datetime.min` fallback key, which raises `TypeError`, so
`listSessions` propagates an exception instead of returning the
no-timestamp session last.  When every session has an offset-aware
timestamp the list does come back newest first. -/
theorem c1_sort_mixed_timestamps_raises :
    listSessionsFromFiles "p" [("a", some [some c1AwareRec]), ("b", some [])] =
      .error .typeError ∧
    (listSessionsFromFiles "p"
        [("old", some [some c1OldRec]), ("new", some [some c1NewRec])]).map
      (List.map SessionInfo.sessionId) = .ok ["new", "old"] :=
  ⟨rfl, rfl⟩

/-- C3: `_parse_timestamp` returns `none` on null, empty and malformed
input, parses a trailing-Z string to the same instant as the
`+00:00` form, but is not total: a truthy non-string input raises
`AttributeError` (the `except` clause catches only `ValueError` and
`TypeError`), contradicting the claim that a wrong-typed input yields
`none`. -/
theorem c3_parse_timestamp_behavior :
    parseTimestamp .null = .ok none ∧
    parseTimestamp (.str "") = .ok none ∧
    parseTimestamp (.str "not-a-date") = .ok none ∧
    parseTimestamp (.str "2026-01-30T03:17:44.781Z") =
      parseTimestamp (.str "2026-01-30T03:17:44.781+00:00") ∧
    parseTimestamp (.str "2026-01-30T03:17:44.781Z") =
      .ok (some ⟨63905339864781000, true⟩) ∧
    parseTimestamp (.num 1) = .error .attributeError :=
  ⟨rfl, rfl, rfl, rfl, rfl, rfl⟩

/-- C6: `list_projects` is not total: an index file that exists but
raises `OSError` on open propagates the error (the `except` clause of
`_try_get_original_path` catches only `JSONDecodeError`, `KeyError` and
`IndexError`), contradicting the claimed fallback on any read failure.
A malformed index does fall back to the decoded directory name, the
session count always counts the `.jsonl` files, an index `originalPath`
wins when readable, and a missing root yields the empty list. -/
theorem c6_list_projects_open_error_propagates :
    listProjects (some [⟨"p", true, .unreadable, ["a.jsonl"]⟩]) = .error .osError ∧
    listProjects none = .ok [] ∧
    listProjects (some [⟨"-a-b", true, .malformed, ["a.jsonl", "b.txt", "c.jsonl"]⟩]) =
      .ok [⟨"-a-b", .str "/a/b", 2⟩] ∧
    listProjects (some [⟨"-a-b", true,
        .parsed (.obj [("originalPath", .str "/x")]), ["a.jsonl"]⟩]) =
      .ok [⟨"-a-b", .str "/x", 1⟩] :=
  ⟨rfl, rfl, rfl, rfl⟩

/-- C2 counterexample: the decoder recognizes a domain token only with
its leading separator, which the strip has already removed when the
domain starts the name, so the example the claim gives fails:
`decode("-github-com-acme-widget")` is `/github/com/acme/widget`, not
`/github.com/acme/widget`.  Independently, the strip removes all
leading separators, not a single one: on `"--a"` the code yields `/a`
while the claimed single-strip contract yields `//a`. -/
theorem c2_decode_counterexample :
    decodeProjectPath "-github-com-acme-widget" = "/github/com/acme/widget" ∧
    ("/github/com/acme/widget" : String) ≠ "/github.com/acme/widget" ∧
    decodeProjectPath "--a" = "/a" ∧
    specDecodeSingleStrip "--a" = "//a" ∧
    ("/a" : String) ≠ "//a" :=
  ⟨rfl, by decide, rfl, rfl, by decide⟩

/-- C2 amended: on every non-empty directory name the decoder strips
all leading separators, replaces the known domain tokens (interior
first, then suffixes, both requiring the leading separator that a
domain at the very start has lost), maps the remaining separators and
prefixes one path separator; `decode("-a-b-c") = "/a/b/c"`, an interior
domain is rewritten, and the leading-domain example decodes without the
dotted form. -/
theorem c2_decode_amended :
    (∀ s, s ≠ "" → decodeProjectPath s = specDecodeStripAll s) ∧
    decodeProjectPath "-a-b-c" = "/a/b/c" ∧
    decodeProjectPath "-Users-doskoi64-src-github-com-foo" =
      "/Users/doskoi64/src/github.com/foo" ∧
    decodeProjectPath "-github-com-acme-widget" = "/github/com/acme/widget" := by
  refine ⟨?_, rfl, rfl, rfl⟩
  intro s hs
  unfold decodeProjectPath specDecodeStripAll specDomainPass specSuffixPass
  rw [if_neg hs, domainReplacements_eq_spec, domainEndings_eq_spec]
  simp only [List.foldl_map]

/-- Witness for the amended C2 contract at a concrete name. -/
theorem c2_decode_amended_witness :
    ("-a-b-c" : String) ≠ "" ∧ decodeProjectPath "-a-b-c" = specDecodeStripAll "-a-b-c" :=
  ⟨by decide, c2_decode_amended.1 "-a-b-c" (by decide)⟩

/-- C10: decoding the empty directory name returns the empty string
with no separator prefixed, and decoding any non-empty directory name
yields a path beginning with the path separator. -/
theorem c10_decode_empty_and_separator_prefix :
    decodeProjectPath "" = "" ∧
    ∀ s, s ≠ "" → ∃ t, decodeProjectPath s = "/" ++ t := by
  refine ⟨rfl, fun s hs => ?_⟩
  unfold decodeProjectPath
  rw [if_neg hs]
  exact ⟨_, rfl⟩

/-- Witness for C10 at a concrete non-empty name. -/
theorem c10_decode_witness :
    ("x" : String) ≠ "" ∧ ∃ t, decodeProjectPath "x" = "/" ++ t :=
  ⟨by decide, c10_decode_empty_and_separator_prefix.2 "x" (by decide)⟩

/-- Bind on a successful `Except` value. -/
@[simp] theorem exceptBind_ok {α β : Type} (a : α) (f : α → Except PyErr β) :
    (Except.ok a >>= f : Except PyErr β) = f a := rfl

/-- Bind on a failed `Except` value. -/
@[simp] theorem exceptBind_err {α β : Type} (e : PyErr) (f : α → Except PyErr β) :
    (Except.error e >>= f : Except PyErr β) = .error e := rfl

/-- A `tool_result` block is a tool block. -/
theorem isToolBlock_of_isToolResultBlock {b : Json}
    (h : isToolResultBlock b = true) : isToolBlock b = true := by
  cases b <;> simp_all [isToolResultBlock, isToolBlock]

/-- One session of `load_session` on a single parsed line is the
processing of that line. -/
theorem loadSession_single (r : Json) : loadSession true [some r] = processLine r := by
  cases h : processLine r with
  | error e => simp [loadSession, List.foldlM, h]
  | ok ms => simp [loadSession, List.foldlM, h]

/-- The tool-result emission loop collects exactly one message per
`tool_result` block, in order, after the accumulator. -/
theorem toolResultLoop_eq (ts : Option Timestamp) (l : List Json) :
    ∀ acc, toolResultLoop ts acc l =
      Except.map (fun r => acc ++ r) (mapME (mkToolResultMsg ts) (l.filter isToolResultBlock)) := by
  induction l with
  | nil => intro acc; simp [toolResultLoop, mapME, Except.map]
  | cons b rest ih =>
      intro acc
      by_cases hb : isToolResultBlock b
      · cases h : toolResultText b with
        | error e =>
            simp [toolResultLoop, hb, List.filter_cons, mapME, mkToolResultMsg, h,
              Except.map]
        | ok t =>
            cases hrest : mapME (mkToolResultMsg ts) (rest.filter isToolResultBlock) with
            | error e =>
                simp [toolResultLoop, hb, List.filter_cons, mapME, mkToolResultMsg, h,
                  hrest, Except.map, ih]
            | ok rs =>
                simp [toolResultLoop, hb, List.filter_cons, mapME, mkToolResultMsg, h,
                  hrest, Except.map, ih]
      · simp [toolResultLoop, hb, List.filter_cons, ih]

/-- The tool-use emission loop collects exactly one message per
`tool_use` block, in order, after the accumulator. -/
theorem toolUseLoop_eq (ts : Option Timestamp) (l : List Json) :
    ∀ acc, toolUseLoop ts acc l =
      Except.map (fun r => acc ++ r) (mapME (mkToolUseMsg ts) (l.filter isToolUseBlock)) := by
  induction l with
  | nil => intro acc; simp [toolUseLoop, mapME, Except.map]
  | cons b rest ih =>
      intro acc
      cases b with
      | obj fs =>
          by_cases hb : jEqStrO (jLookup fs "type") "tool_use"
          · cases h : summarizeToolUse ((jLookup fs "name").getD (.str ""))
                ((jLookup fs "input").getD (.obj [])) with
            | error e =>
                simp [toolUseLoop, hb, List.filter_cons, isToolUseBlock, mapME,
                  mkToolUseMsg, jGetD, h, Except.map]
            | ok s =>
                cases hrest : mapME (mkToolUseMsg ts) (rest.filter isToolUseBlock) with
                | error e =>
                    simp [toolUseLoop, hb, List.filter_cons, isToolUseBlock, mapME,
                      mkToolUseMsg, jGetD, h, hrest, Except.map, ih]
                | ok rs =>
                    simp [toolUseLoop, hb, List.filter_cons, isToolUseBlock, mapME,
                      mkToolUseMsg, jGetD, h, hrest, Except.map, ih]
          · simp [toolUseLoop, hb, List.filter_cons, isToolUseBlock, ih]
      | null => simp [toolUseLoop, List.filter_cons, isToolUseBlock, ih]
      | bool c => simp [toolUseLoop, List.filter_cons, isToolUseBlock, ih]
      | num n => simp [toolUseLoop, List.filter_cons, isToolUseBlock, ih]
      | str s => simp [toolUseLoop, List.filter_cons, isToolUseBlock, ih]
      | arr xs => simp [toolUseLoop, List.filter_cons, isToolUseBlock, ih]

/-- The user branch dispatches on the presence of any tool sub-block
and then emits exactly the `tool_result` messages, or else the
plain-text message. -/
theorem processUserContent_eq_specAmended (ts : Option Timestamp) (content : Json) :
    processUserContent ts content = specUserAmended ts content := by
  cases content with
  | arr bs =>
      simp only [processUserContent, specUserAmended, hasToolSubBlock,
        extractMessagesFromContent, contentToolResultBlocks]
      by_cases ha : bs.any isToolBlock
      · have hne : bs.filter isToolBlock ≠ [] := by
          intro hnil
          rw [List.filter_eq_nil_iff] at hnil
          rcases List.any_eq_true.mp ha with ⟨x, hx, hpx⟩
          exact hnil x hx hpx
        have hempty : (bs.filter isToolBlock).isEmpty = false := by
          cases hfe : bs.filter isToolBlock with
          | nil => exact absurd hfe hne
          | cons y ys => rfl
        rw [if_pos ha, hempty]
        simp only [Bool.false_eq_true, if_false]
        rw [toolResultLoop_eq, List.filter_filter]
        have hcong : bs.filter (fun a => isToolResultBlock a && isToolBlock a) =
            bs.filter isToolResultBlock := by
          refine List.filter_congr fun x _ => ?_
          cases hr : isToolResultBlock x
          · simp
          · simp [isToolBlock_of_isToolResultBlock hr]
        rw [hcong]
        cases hm : mapME (mkToolResultMsg ts) (bs.filter isToolResultBlock) <;>
          simp [Except.map]
      · have hnil : bs.filter isToolBlock = [] := by
          rw [List.filter_eq_nil_iff]
          intro a hx hpa
          exact List.any_eq_false.mp (Bool.eq_false_iff.mpr ha) a hx hpa
        rw [if_neg ha, hnil]
        rfl
  | null => rfl
  | bool b => rfl
  | num n => rfl
  | str s => rfl
  | obj fs => rfl

/-- A user content list holding a `tool_use` block but no `tool_result`
block, together with a text block. -/
def c4CexContent : Json :=
  .arr [.obj [("type", .str "tool_use")], .obj [("type", .str "text"), ("text", .str "hi")]]

/-- C4 counterexample: on a user record whose content list holds a
`tool_use` block and a text block but no `tool_result` block, the code
emits no message at all, while the claim (which dispatches on the
presence of `tool_result` blocks alone) predicts one `user` message
with the extracted text. -/
theorem c4_user_dispatch_counterexample :
    loadSession true [some (mkUserRec c4CexContent)] = .ok [] ∧
    specUserClaimed none c4CexContent = .ok [⟨"user", "hi", none, none, none⟩] ∧
    (Except.ok [] : Except PyErr (List Message)) ≠
      .ok [⟨"user", "hi", none, none, none⟩] := by
  refine ⟨rfl, rfl, fun h => ?_⟩
  injection h with h2
  exact List.noConfusion h2

/-- C4 amended: for every user record, a content list holding at least
one `tool_use` or `tool_result` sub-block yields exactly one
`tool_result` message per `tool_result` block in order and no `user`
message; a list with neither kind of sub-block, or any non-list
content, yields one `user` message exactly when the extracted text is
non-empty. -/
theorem c4_user_record_messages :
    (∀ ts content, processUserContent ts content = specUserAmended ts content) ∧
    (∀ content, loadSession true [some (mkUserRec content)] = specUserAmended none content) := by
  refine ⟨processUserContent_eq_specAmended, fun content => ?_⟩
  rw [loadSession_single]
  show processUserContent none content = specUserAmended none content
  exact processUserContent_eq_specAmended none content

/-- The assistant branch emits the non-empty text message first and
then one `tool_use` message per `tool_use` block in order. -/
theorem processAssistant_eq_spec (ts : Option Timestamp) (content : Json) :
    processAssistant ts (mkAssistantRec content) = specAssistant ts content := by
  have hbody : processAssistant ts (mkAssistantRec content) = (do
      let text ← extractTextFromContent content
      let first := if text == "" then ([] : List Message)
        else [⟨"assistant", text, ts, none, none⟩]
      match content with
      | .arr bs => toolUseLoop ts first bs
      | _ => Except.ok first) := rfl
  rw [hbody]
  cases h : extractTextFromContent content with
  | error e => simp [specAssistant, h]
  | ok t =>
      cases content with
      | arr bs =>
          simp only [specAssistant, h, exceptBind_ok, contentToolUseBlocks]
          rw [toolUseLoop_eq]
          cases hm : mapME (mkToolUseMsg ts) (bs.filter isToolUseBlock) <;>
            simp [Except.map]
      | null => simp [specAssistant, h, contentToolUseBlocks, mapME]
      | bool b => simp [specAssistant, h, contentToolUseBlocks, mapME]
      | num n => simp [specAssistant, h, contentToolUseBlocks, mapME]
      | str s => simp [specAssistant, h, contentToolUseBlocks, mapME]
      | obj fs => simp [specAssistant, h, contentToolUseBlocks, mapME]

/-- An assistant content list with text and two tool uses. -/
def c8DemoContent : Json :=
  .arr [.obj [("type", .str "text"), ("text", .str "working")],
        .obj [("type", .str "tool_use"), ("name", .str "Bash"),
              ("input", .obj [("command", .str "ls")])],
        .obj [("type", .str "tool_use"), ("name", .str "Glob"),
              ("input", .obj [("pattern", .str "*.py")])]]

/-- C8: an assistant record emits one `assistant` message exactly when
the extracted text is non-empty, and independently one `tool_use`
message per `tool_use` block in document order carrying name, raw input
and the summarizer text; the concrete record with text and two tool
uses yields exactly three messages, text first. -/
theorem c8_assistant_record_messages :
    (∀ ts content, processAssistant ts (mkAssistantRec content) = specAssistant ts content) ∧
    (∀ content, loadSession true [some (mkAssistantRec content)] = specAssistant none content) ∧
    loadSession true [some (mkAssistantRec c8DemoContent)] =
      .ok [⟨"assistant", "working", none, none, none⟩,
           ⟨"tool_use", "[Bash] ls", none, some (.str "Bash"),
            some (.obj [("command", .str "ls")])⟩,
           ⟨"tool_use", "[Glob] *.py", none, some (.str "Glob"),
            some (.obj [("pattern", .str "*.py")])⟩] := by
  refine ⟨processAssistant_eq_spec, fun content => ?_, rfl⟩
  rw [loadSession_single]
  show processAssistant none (mkAssistantRec content) = specAssistant none content
  exact processAssistant_eq_spec none content

/-- A content list with one thinking block and two text blocks. -/
def c7DemoBlocks : List Json :=
  [.obj [("type", .str "thinking"), ("text", .str "x")],
   .obj [("type", .str "text"), ("text", .str "a")],
   .obj [("type", .str "text"), ("text", .str "b")]]

/-- C7: text extraction returns a plain string unchanged, joins with
newlines exactly the `text` fields of the blocks typed `"text"` in
original order (thinking and all other block types excluded), returns
the empty string on every other shape, and on the
thinking/text/text example yields the two text bodies joined. -/
theorem c7_extract_text_behavior :
    (∀ s, extractTextFromContent (.str s) = .ok s) ∧
    (∀ bs ss, allStrings (blockTextVals bs) = some ss →
      extractTextFromContent (.arr bs) = .ok (String.intercalate "\n" ss)) ∧
    extractTextFromContent .null = .ok "" ∧
    (∀ b, extractTextFromContent (.bool b) = .ok "") ∧
    (∀ n, extractTextFromContent (.num n) = .ok "") ∧
    (∀ fs, extractTextFromContent (.obj fs) = .ok "") ∧
    extractTextFromContent (.arr c7DemoBlocks) = .ok "a\nb" := by
  refine ⟨fun s => rfl, fun bs ss h => ?_, rfl, fun b => rfl, fun n => rfl,
    fun fs => rfl, rfl⟩
  simp [extractTextFromContent, pyJoin, h]

/-- Witness for the block-list conjunct of C7 at the example blocks. -/
theorem c7_extract_text_witness :
    allStrings (blockTextVals c7DemoBlocks) = some ["a", "b"] ∧
    extractTextFromContent (.arr c7DemoBlocks) =
      .ok (String.intercalate "\n" ["a", "b"]) :=
  ⟨rfl, c7_extract_text_behavior.2.1 c7DemoBlocks ["a", "b"] rfl⟩

/-- C9: the Bash summary prefers a non-empty description verbatim,
otherwise keeps a command of at most 100 code points untouched and cuts
a longer command to its first 100 code points plus the ellipsis marker;
the cut is exactly at the limit; a session preview is likewise kept
untouched at up to 200 code points and cut to exactly 200 plus the
marker beyond. -/
theorem c9_truncation_limits :
    (∀ input cmd desc,
      pyGetD input "command" (.str "") = .ok (.str cmd) →
      pyGetD input "description" (.str "") = .ok (.str desc) →
      (desc ≠ "" → summarizeToolUse (.str "Bash") input = .ok ("[Bash] " ++ desc)) ∧
      (desc = "" → cmd.length ≤ 100 →
        summarizeToolUse (.str "Bash") input = .ok ("[Bash] " ++ cmd)) ∧
      (desc = "" → 100 < cmd.length →
        summarizeToolUse (.str "Bash") input = .ok ("[Bash] " ++ cmd.take 100 ++ "..."))) ∧
    (∀ s : String, 100 < s.length → (s.take 100).length = 100) ∧
    (∀ s : String, 200 < s.length → (s.take 200).length = 200) ∧
    (∀ stem pn t, scanFile stem pn [some (mkUserRec (.str t))] =
      .ok ⟨stem, pn, if 200 < t.length then t.take 200 ++ "..." else t,
           none, 1, .str "", .str ""⟩) := by
  refine ⟨fun input cmd desc h1 h2 => ?_, fun s h => ?_, fun s h => ?_,
    fun stem pn t => rfl⟩
  · have hb : summarizeToolUse (.str "Bash") input = (do
        let c ← pyGetD input "command" (.str "")
        let d ← pyGetD input "description" (.str "")
        if pyTruthy d then Except.ok ("[Bash] " ++ pyStr d)
        else do
          let n ← pyLen c
          if 100 < n then do
            let cs ← pySliceTake c 100
            Except.ok ("[Bash] " ++ pyStr cs ++ "...")
          else Except.ok ("[Bash] " ++ pyStr c)) := rfl
    rw [hb, h1, h2]
    simp only [exceptBind_ok]
    refine ⟨fun hd => ?_, fun hd hlen => ?_, fun hd hlen => ?_⟩
    · rw [if_pos (by simp [pyTruthy, hd])]
      rfl
    · subst hd
      rw [if_neg (by simp [pyTruthy])]
      simp only [pyLen, exceptBind_ok]
      rw [if_neg (by omega)]
      rfl
    · subst hd
      rw [if_neg (by simp [pyTruthy])]
      simp only [pyLen, exceptBind_ok]
      rw [if_pos hlen]
      rfl
  · rw [String.take_eq]
    show (s.1.take 100).length = 100
    rw [List.length_take]
    have hl : s.1.length = s.length := rfl
    omega
  · rw [String.take_eq]
    show (s.1.take 200).length = 200
    rw [List.length_take]
    have hl : s.1.length = s.length := rfl
    omega

/-- A Bash command of 101 code points. -/
def c9LongCmd : String :=
  "aaaaaaaaaaaaaaaaaaaaaaaaaaaaaaaaaaaaaaaaaaaaaaaaaaaaaaaaaaaaaaaaaaaaaaaaaaaaaaaaaaaaaaaaaaaaaaaaaaaaa"

/-- Witness for C9 at concrete inputs on both sides of each limit. -/
theorem c9_truncation_witness :
    summarizeToolUse (.str "Bash")
      (.obj [("command", .str "ls"), ("description", .str "List")]) =
      .ok ("[Bash] " ++ "List") ∧
    summarizeToolUse (.str "Bash")
      (.obj [("command", .str "ls"), ("description", .str "")]) =
      .ok ("[Bash] " ++ "ls") ∧
    summarizeToolUse (.str "Bash")
      (.obj [("command", .str c9LongCmd), ("description", .str "")]) =
      .ok ("[Bash] " ++ c9LongCmd.take 100 ++ "...") ∧
    (c9LongCmd.take 100).length = 100 :=
  ⟨(c9_truncation_limits.1 (.obj [("command", .str "ls"), ("description", .str "List")])
      "ls" "List" rfl rfl).1 (by decide),
   (c9_truncation_limits.1 (.obj [("command", .str "ls"), ("description", .str "")])
      "ls" "" rfl rfl).2.1 rfl (by decide),
   (c9_truncation_limits.1 (.obj [("command", .str c9LongCmd), ("description", .str "")])
      c9LongCmd "" rfl rfl).2.2 rfl (by decide),
   c9_truncation_limits.2.1 c9LongCmd (by decide)⟩

/-- Truncating a non-empty preview yields a non-empty preview. -/
theorem truncPreview_ne_empty {t : String} (h : t ≠ "") : truncPreview t ≠ "" := by
  unfold truncPreview
  by_cases hl : 200 < t.length
  · rw [if_pos hl]
    intro hc
    have hlen := congrArg String.length hc
    rw [String.length_append] at hlen
    have h3 : ("..." : String).length = 3 := rfl
    have h0 : ("" : String).length = 0 := rfl
    rw [h3, h0] at hlen
    omega
  · rw [if_neg hl]
    exact h

/-- While the running preview is empty, a user record overwrites the
preview (truncated), timestamp and git branch, and counts itself. -/
theorem scanStep_capture (st : ScanState) (obj content : Json) (t : String)
    (tsv : Option Timestamp) (gb : Json)
    (hprev : st.preview = "")
    (h1 : pyGet obj "type" = .ok (some (.str "user")))
    (h2 : msgContentOf obj = .ok content)
    (h3 : extractTextFromContent content = .ok t)
    (h4 : tsOf obj = .ok tsv)
    (h5 : pyGetD obj "gitBranch" (.str "") = .ok gb) :
    scanStep st obj = .ok ⟨truncPreview t, tsv, gb, st.messageCount + 1⟩ := by
  unfold scanStep
  rw [h1]
  simp only [exceptBind_ok, jEqStrO, beq_self_eq_true, Bool.true_or, if_true, hprev]
  rw [h2]
  simp only [exceptBind_ok]
  rw [h3]
  simp only [exceptBind_ok]
  rw [h4]
  simp only [exceptBind_ok]
  rw [h5]
  simp only [exceptBind_ok]
  simp

/-- Once the running preview is non-empty, one scanning step leaves
preview, timestamp and git branch unchanged. -/
theorem scanStep_preserve (st : ScanState) (o : Json) (h : st.preview ≠ "")
    (st1 : ScanState) (hstep : scanStep st o = .ok st1) :
    st1.preview = st.preview ∧ st1.timestamp = st.timestamp ∧
      st1.gitBranch = st.gitBranch := by
  unfold scanStep at hstep
  cases hg : pyGet o "type" with
  | error e =>
      rw [hg] at hstep
      exact absurd hstep (by simp)
  | ok mt =>
      rw [hg] at hstep
      simp only [exceptBind_ok] at hstep
      have hpe : (if jEqStrO mt "user" || jEqStrO mt "assistant"
          then { st with messageCount := st.messageCount + 1 } else st).preview =
          st.preview := by
        by_cases hc : jEqStrO mt "user" || jEqStrO mt "assistant" <;> simp [hc]
      rw [hpe] at hstep
      have hb : (st.preview == "") = false := beq_eq_false_iff_ne.mpr h
      rw [hb, Bool.and_false] at hstep
      simp only [Bool.false_eq_true, if_false] at hstep
      have hst1 : st1 = (if jEqStrO mt "user" || jEqStrO mt "assistant"
          then { st with messageCount := st.messageCount + 1 } else st) := by
        injection hstep with h'
        exact h'.symm
      subst hst1
      by_cases hc : jEqStrO mt "user" || jEqStrO mt "assistant" <;> simp [hc]

/-- Once the running preview is non-empty, the rest of the scanning
fold leaves preview, timestamp and git branch unchanged. -/
theorem scanFold_preserve : ∀ (ls : List Json) (st st' : ScanState),
    st.preview ≠ "" → scanFold st ls = .ok st' →
    st'.preview = st.preview ∧ st'.timestamp = st.timestamp ∧
      st'.gitBranch = st.gitBranch := by
  intro ls
  induction ls with
  | nil =>
      intro st st' h hf
      have : st = st' := by
        simp only [scanFold, List.foldlM_nil] at hf
        injection hf
      subst this
      exact ⟨rfl, rfl, rfl⟩
  | cons o rest ih =>
      intro st st' h hf
      simp only [scanFold, List.foldlM_cons] at hf
      cases hstep : scanStep st o with
      | error e =>
          rw [hstep] at hf
          exact absurd hf (by simp)
      | ok st1 =>
          rw [hstep] at hf
          simp only [exceptBind_ok] at hf
          obtain ⟨p1, p2, p3⟩ := scanStep_preserve st o h st1 hstep
          obtain ⟨q1, q2, q3⟩ := ih st1 st' (by rw [p1]; exact h) hf
          exact ⟨by rw [q1, p1], by rw [q2, p2], by rw [q3, p3]⟩

/-- The user record with empty extracted text that opens the C5
counterexample transcript. -/
def c5FirstRec : Json :=
  .obj [("type", .str "user"), ("message", .obj [("content", .arr [])]),
        ("gitBranch", .str "main")]

/-- The later user record whose data wins in the C5 counterexample. -/
def c5SecondRec : Json :=
  .obj [("type", .str "user"), ("message", .obj [("content", .str "hi")]),
        ("gitBranch", .str "dev")]

/-- C5 counterexample: the capture guard is `not preview`, not "first
user record", so when the first user record extracts an empty text the
second user record overwrites preview, timestamp and git branch: the
scan of the two-record file reports the branch `dev` and preview `hi`
of the second record, not the branch `main` and empty preview of the
first record. -/
theorem c5_first_user_counterexample :
    scanFile "s" "p" [some c5FirstRec, some c5SecondRec] =
      .ok ⟨"s", "p", "hi", none, 2, .str "dev", .str ""⟩ ∧
    extractTextFromContent (.arr []) = .ok "" ∧
    pyGetD c5FirstRec "gitBranch" (.str "") = .ok (.str "main") ∧
    (Json.str "dev") ≠ (Json.str "main") := by
  refine ⟨rfl, rfl, rfl, fun h => ?_⟩
  injection h with h2
  exact absurd h2 (by decide)

/-- C5 amended: preview, timestamp and git branch are captured from the
first user record whose extracted text is non-empty: while the running
preview is empty every user record overwrites all three fields (with
the preview truncated), and once the preview is non-empty no later
record changes any of them, so the scanned `SessionInfo` reports
exactly the values of that record. -/
theorem c5_first_nonempty_user_capture :
    (∀ (st : ScanState) (obj content : Json) (t : String)
        (tsv : Option Timestamp) (gb : Json),
      st.preview = "" →
      pyGet obj "type" = .ok (some (.str "user")) →
      msgContentOf obj = .ok content →
      extractTextFromContent content = .ok t →
      tsOf obj = .ok tsv →
      pyGetD obj "gitBranch" (.str "") = .ok gb →
      scanStep st obj = .ok ⟨truncPreview t, tsv, gb, st.messageCount + 1⟩) ∧
    (∀ (ls : List Json) (st st' : ScanState),
      st.preview ≠ "" → scanFold st ls = .ok st' →
      st'.preview = st.preview ∧ st'.timestamp = st.timestamp ∧
        st'.gitBranch = st.gitBranch) ∧
    (∀ (pre : List Json) (u : Json) (post : List Json) (stem pn : String)
        (st : ScanState) (content : Json) (t : String)
        (tsv : Option Timestamp) (gb : Json) (r : SessionInfo),
      scanFold ⟨"", none, .str "", 0⟩ pre = .ok st →
      st.preview = "" →
      pyGet u "type" = .ok (some (.str "user")) →
      msgContentOf u = .ok content →
      extractTextFromContent content = .ok t →
      t ≠ "" →
      tsOf u = .ok tsv →
      pyGetD u "gitBranch" (.str "") = .ok gb →
      scanFile stem pn (pre.map some ++ some u :: post.map some) = .ok r →
      r.preview = truncPreview t ∧ r.timestamp = tsv ∧ r.gitBranch = gb) := by
  refine ⟨scanStep_capture, scanFold_preserve, ?_⟩
  intro pre u post stem pn st content t tsv gb r
  intro hpre hprev h1 h2 h3 ht h4 h5 hfile
  unfold scanFile at hfile
  have hlines : (pre.map some ++ some u :: post.map some).filterMap id =
      pre ++ u :: post := by
    simp
  rw [hlines] at hfile
  have happ : scanFold ⟨"", none, .str "", 0⟩ (pre ++ u :: post) = (do
      let st0 ← scanFold ⟨"", none, .str "", 0⟩ pre
      scanFold st0 (u :: post)) := by
    unfold scanFold
    exact List.foldlM_append _ _ _ _
  rw [happ, hpre] at hfile
  simp only [exceptBind_ok] at hfile
  simp only [scanFold, List.foldlM_cons] at hfile
  rw [scanStep_capture st u content t tsv gb hprev h1 h2 h3 h4 h5] at hfile
  simp only [exceptBind_ok] at hfile
  cases hpost : List.foldlM scanStep
      (⟨truncPreview t, tsv, gb, st.messageCount + 1⟩ : ScanState) post with
  | error e =>
      rw [hpost] at hfile
      exact absurd hfile (by simp)
  | ok st3 =>
      rw [hpost] at hfile
      simp only [exceptBind_ok] at hfile
      have hr : r = ⟨stem, pn, st3.preview, st3.timestamp, st3.messageCount,
          st3.gitBranch, .str ""⟩ := by
        injection hfile with h'
        exact h'.symm
      have hcap : (⟨truncPreview t, tsv, gb, st.messageCount + 1⟩ : ScanState).preview ≠ "" :=
        truncPreview_ne_empty ht
      obtain ⟨q1, q2, q3⟩ := scanFold_preserve post
        ⟨truncPreview t, tsv, gb, st.messageCount + 1⟩ st3 hcap hpost
      subst hr
      exact ⟨q1, q2, q3⟩

/-- The user record that the C5 witness captures. -/
def c5WitnessRec : Json :=
  .obj [("type", .str "user"), ("message", .obj [("content", .str "hello")]),
        ("gitBranch", .str "main")]

/-- Witness for the amended C5 capture at a concrete two-record file. -/
theorem c5_first_nonempty_user_capture_witness :
    (⟨"s", "p", "hello", none, 2, Json.str "main", Json.str ""⟩ : SessionInfo).preview =
      truncPreview "hello" ∧
    (⟨"s", "p", "hello", none, 2, Json.str "main", Json.str ""⟩ : SessionInfo).timestamp =
      none ∧
    (⟨"s", "p", "hello", none, 2, Json.str "main", Json.str ""⟩ : SessionInfo).gitBranch =
      Json.str "main" :=
  c5_first_nonempty_user_capture.2.2 [] c5WitnessRec [c5SecondRec] "s" "p"
    ⟨"", none, .str "", 0⟩ (.str "hello") "hello" none (.str "main")
    ⟨"s", "p", "hello", none, 2, .str "main", .str ""⟩
    rfl rfl rfl rfl rfl (by decide) rfl rfl rfl

/-- Witness for the amended C4 contract at a concrete plain-string
record. -/
theorem c4_user_record_messages_witness :
    loadSession true [some (mkUserRec (.str "hola"))] =
      specUserAmended none (.str "hola") :=
  c4_user_record_messages.2 (.str "hola")

/-- Witness for C8 at a concrete plain-string record. -/
theorem c8_assistant_record_messages_witness :
    loadSession true [some (mkAssistantRec (.str "txt"))] =
      specAssistant none (.str "txt") :=
  c8_assistant_record_messages.2.1 (.str "txt")
